import Mathlib

/-!
Verification of the analytics and ingestion-parsing core of a personal
finance tracker (statistics, Pareto analysis, filter composition, CSV
row validation) against its natural-language specification.

Modelling conventions:
* JavaScript numbers are modelled by `ℚ` (all amounts in the claims are
  exact decimal values, and the code performs only field operations on
  them, so the rational model is faithful where the claims look).
* JavaScript `Date` values are modelled by their day number (days since
  1970-01-01 in the proleptic Gregorian calendar); time-of-day and time
  zone are abstracted away, since no claim depends on them.
* `Array.prototype.sort` with a numeric comparator is a stable sort; it
  is modelled by `List.insertionSort`, which is stable.
* JavaScript `Map` (insertion-ordered) is modelled by an association
  list where `mapSet` updates an existing key in place and appends a
  fresh key at the end, exactly like `Map.prototype.set`.
-/

namespace RadinLibre

/-- Domain `Transaction` from `src/domain/types.ts`: `categoryId` is
nullable (`none` = uncategorized). -/
structure Transaction where
  id : Int
  date : Int
  description : String
  amount : ℚ
  categoryId : Option Int
  deriving DecidableEq, Repr

/-- Domain `Category` from `src/domain/types.ts`. -/
structure Category where
  id : Int
  name : String
  color : Option String
  deriving DecidableEq, Repr

/-- Domain `SpendingStats` from `src/domain/types.ts`. -/
structure SpendingStats where
  total : ℚ
  average : ℚ
  median : ℚ
  min : ℚ
  max : ℚ
  count : Nat
  deriving DecidableEq, Repr

/-- Domain `CategorySpending` from `src/domain/types.ts`. -/
structure CategorySpending where
  categoryId : Int
  categoryName : String
  totalAmount : ℚ
  transactionCount : Nat
  percentage : ℚ
  cumulativePercentage : ℚ
  deriving DecidableEq, Repr

/-- Domain `ParetoAnalysisResult` from `src/domain/types.ts`. -/
structure ParetoAnalysisResult where
  categories : List CategorySpending
  paretoCategories : List CategorySpending
  totalSpending : ℚ
  paretoThreshold : ℚ
  deriving DecidableEq, Repr

/-! ## Statistics engine (`src/domain/statistics.ts`) -/

/-- `Math.abs` on the rational model of JS numbers. -/
def mabs (x : ℚ) : ℚ := if x < 0 then -x else x

/-- Two-argument `Math.min`. -/
def jsMin (a b : ℚ) : ℚ := if a ≤ b then a else b

/-- Two-argument `Math.max`. -/
def jsMax (a b : ℚ) : ℚ := if b ≤ a then a else b

/-- `Math.min(...amounts)` on a non-empty list (the code only calls it
on non-empty input; the `[]` branch is unreachable there). -/
def listMin : List ℚ → ℚ
  | [] => 0
  | a :: rest => rest.foldl jsMin a

/-- `Math.max(...amounts)` on a non-empty list. -/
def listMax : List ℚ → ℚ
  | [] => 0
  | a :: rest => rest.foldl jsMax a

/-- `calculateSpendingStats` from `src/domain/statistics.ts`. -/
def calculateSpendingStats (transactions : List Transaction) : SpendingStats :=
  if transactions.length = 0 then
    { total := 0, average := 0, median := 0, min := 0, max := 0, count := 0 }
  else
    let amounts := transactions.map (fun t => mabs t.amount)
    let total := amounts.foldl (fun sum amount => sum + amount) 0
    let average := total / (amounts.length : ℚ)
    let sortedAmounts := amounts.insertionSort (· ≤ ·)
    let mid := sortedAmounts.length / 2
    let median :=
      if sortedAmounts.length % 2 = 0 then
        (sortedAmounts.getD (mid - 1) 0 + sortedAmounts.getD mid 0) / 2
      else
        sortedAmounts.getD mid 0
    { total := total
      average := average
      median := median
      min := listMin amounts
      max := listMax amounts
      count := transactions.length }

/-- Association-list lookup modelling `Map.prototype.get`. -/
def mapGet {β : Type} : List (Int × β) → Int → Option β
  | [], _ => none
  | (k', v) :: rest, k => if k' = k then some v else mapGet rest k

/-- Association-list update modelling `Map.prototype.set`: an existing
key keeps its position, a fresh key is appended at the end. -/
def mapSet {β : Type} : List (Int × β) → Int → β → List (Int × β)
  | [], k, v => [(k, v)]
  | (k', v') :: rest, k, v =>
      if k' = k then (k, v) :: rest else (k', v') :: mapSet rest k v

/-- The grouping loop of `calculateStatsByCategory`
(`src/domain/statistics.ts`): `transaction.categoryId ?? 0` keys the
insertion-ordered map, groups accumulate by appending. -/
def transactionsByCategory (transactions : List Transaction) :
    List (Int × List Transaction) :=
  transactions.foldl
    (fun m t =>
      let categoryId := t.categoryId.getD 0
      let existing := (mapGet m categoryId).getD []
      mapSet m categoryId (existing ++ [t]))
    []

/-- `calculateStatsByCategory` from `src/domain/statistics.ts`,
returning the insertion-ordered map as an association list. -/
def calculateStatsByCategory (transactions : List Transaction) :
    List (Int × SpendingStats) :=
  (transactionsByCategory transactions).map
    (fun p => (p.1, calculateSpendingStats p.2))

/-- The placeholder element for the (unreachable) out-of-range accesses
in `findOutliers`. -/
def defaultTransaction : Transaction :=
  { id := 0, date := 0, description := "", amount := 0, categoryId := none }

/-- `findOutliers` from `src/domain/statistics.ts`.  The quartile
indices `Math.floor(n * 0.25)` and `Math.floor(n * 0.75)` are computed
as `n / 4` and `3 * n / 4` in `Nat` division, which is exact: `0.25`
and `0.75` are dyadic, so the float products round to nothing. -/
def findOutliers (transactions : List Transaction) (threshold : ℚ) :
    List Transaction :=
  if transactions.length < 4 then
    []
  else
    let sortedTransactions :=
      transactions.insertionSort (fun a b => mabs a.amount ≤ mabs b.amount)
    let q1Index := transactions.length / 4
    let q3Index := 3 * transactions.length / 4
    let q1 := mabs (sortedTransactions.getD q1Index defaultTransaction).amount
    let q3 := mabs (sortedTransactions.getD q3Index defaultTransaction).amount
    let iqr := q3 - q1
    let upperBound := q3 + threshold * iqr
    transactions.filter (fun t => upperBound < mabs t.amount)

/-! ## Pareto analyzer (`calculateParetoAnalysis` and its helpers) -/

/-- The grouping loop of `calculateParetoAnalysis`: per-category
`{ total, count }` accumulators in an insertion-ordered map, keyed by
`transaction.categoryId ?? 0`. -/
def categoryTotals (transactions : List Transaction) : List (Int × (ℚ × Nat)) :=
  transactions.foldl
    (fun m t =>
      let categoryId := t.categoryId.getD 0
      let existing := (mapGet m categoryId).getD (0, 0)
      mapSet m categoryId (existing.1 + mabs t.amount, existing.2 + 1))
    []

/-- `new Map(categories.map(cat => [cat.id, cat.name]))`: built by
successive `set`s, so a later duplicate id overwrites an earlier one. -/
def categoryNameMap (categories : List Category) : List (Int × String) :=
  categories.foldl (fun m c => mapSet m c.id c.name) []

/-- The loop assigning `cumulativePercentage` in ranked order: a
running sum of `totalAmount` as a percentage of `totalSpending`
(`0` when `totalSpending` is not positive, as in the source's
ternary guard). -/
def setCumulative (totalSpending : ℚ) : ℚ → List CategorySpending → List CategorySpending
  | _, [] => []
  | cumulativeSum, c :: rest =>
    let s := cumulativeSum + c.totalAmount
    { c with cumulativePercentage := if 0 < totalSpending then s / totalSpending * 100 else 0 }
      :: setCumulative totalSpending s rest

/-- The Pareto-prefix selection block of `calculateParetoAnalysis`: the
`filter` on `cumulativePercentage <= 80` followed by the two `push`
corrections, with JS index accesses rendered as `·[·]?`. -/
def paretoSelect (sortedCategories : List CategorySpending) : List CategorySpending :=
  let paretoCategories := sortedCategories.filter (fun cat => cat.cumulativePercentage ≤ 80)
  if paretoCategories.length = 0 ∧ 0 < sortedCategories.length then
    match sortedCategories[0]? with
    | some c => paretoCategories ++ [c]
    | none => paretoCategories
  else if paretoCategories.length < sortedCategories.length then
    match sortedCategories[paretoCategories.length]? with
    | some nextCategory => paretoCategories ++ [nextCategory]
    | none => paretoCategories
  else paretoCategories

/-- The `totalSpending` reduction of `calculateParetoAnalysis` over
the grouped per-category totals. -/
def paretoTotalSpending (totals : List (Int × (ℚ × Nat))) : ℚ :=
  totals.foldl (fun sum item => sum + item.2.1) 0

/-- The `CategorySpending` entries built from the grouped totals
(before sorting and before the cumulative pass, so
`cumulativePercentage` is still 0). -/
def paretoEntries (totals : List (Int × (ℚ × Nat))) (categories : List Category) :
    List CategorySpending :=
  totals.map (fun p =>
    { categoryId := p.1
      categoryName := (mapGet (categoryNameMap categories) p.1).getD "Non catégorisé"
      totalAmount := p.2.1
      transactionCount := p.2.2
      percentage :=
        if 0 < paretoTotalSpending totals then
          p.2.1 / paretoTotalSpending totals * 100
        else 0
      cumulativePercentage := 0 })

/-- `sortedCategories` after the cumulative-percentage pass: the
descending stable sort by `totalAmount` with the running percentages
filled in. -/
def paretoRanking (totals : List (Int × (ℚ × Nat))) (categories : List Category) :
    List CategorySpending :=
  setCumulative (paretoTotalSpending totals) 0
    ((paretoEntries totals categories).insertionSort (fun a b => b.totalAmount ≤ a.totalAmount))

/-- The body of `calculateParetoAnalysis` after the grouping loop: it
depends on the transactions only through their `categoryTotals`.
`paretoThreshold = totalSpending * 0.8` is modelled with the exact
rational `4/5` (no claim touches the threshold's float value). -/
def paretoFromTotals (totals : List (Int × (ℚ × Nat))) (categories : List Category) :
    ParetoAnalysisResult :=
  { categories := paretoRanking totals categories
    paretoCategories := paretoSelect (paretoRanking totals categories)
    totalSpending := paretoTotalSpending totals
    paretoThreshold := paretoTotalSpending totals * (4 / 5) }

/-- `calculateParetoAnalysis` from the Pareto module. -/
def calculateParetoAnalysis (transactions : List Transaction) (categories : List Category) :
    ParetoAnalysisResult :=
  if transactions.length = 0 then
    { categories := [], paretoCategories := [], totalSpending := 0, paretoThreshold := 0 }
  else
    paretoFromTotals (categoryTotals transactions) categories

/-! ## CSV ingestion parser (`csv-import` module) -/

/-- `ColumnMapping`: zero-based positional indices into a raw row. -/
structure ColumnMapping where
  dateColumn : Nat
  descriptionColumn : Nat
  amountColumn : Nat
  deriving DecidableEq, Repr

/-- `MappedRow`: the three extracted raw cells. -/
structure MappedRow where
  date : String
  description : String
  amount : String
  deriving DecidableEq, Repr

/-- `ValidatedTransaction` (dates as day numbers, amounts as ℚ). -/
structure ValidatedTransaction where
  date : Int
  description : String
  amount : ℚ
  deriving DecidableEq, Repr

/-- `ValidationResult` with its `success` flag and optional payloads. -/
structure ValidationResult where
  success : Bool
  data : Option ValidatedTransaction
  error : Option String
  deriving DecidableEq, Repr

/-- `InvalidRow`: original position, original cells, reason. -/
structure InvalidRow where
  rowIndex : Nat
  row : List String
  error : String
  deriving DecidableEq, Repr

/-- `ParseResult`: the two partitions of the batch. -/
structure ParseResult where
  valid : List ValidatedTransaction
  invalid : List InvalidRow
  deriving DecidableEq, Repr

/-- `String.prototype.trim`, modelled on the character list (the
claims only exercise ASCII whitespace). -/
def jsTrim (s : String) : String :=
  ⟨((s.data.dropWhile Char.isWhitespace).reverse.dropWhile Char.isWhitespace).reverse⟩

/-- Day count since 1970-01-01 of the Gregorian day `y-m-d` (`m`
1-based; `d` only offsets from day 1 of the month, so out-of-range
days roll over into later months). Standard civil-from-days
arithmetic. -/
def daysFromCivil (y m d : Int) : Int :=
  let y' := if m ≤ 2 then y - 1 else y
  let era := y'.fdiv 400
  let yoe := y' - era * 400
  let mp := (m + 9).emod 12
  let doy := (153 * mp + 2).fdiv 5 + d - 1
  let doe := yoe * 365 + yoe.fdiv 4 - yoe.fdiv 100 + doy
  era * 146097 + doe - 719468

/-- Model of the JS `new Date(year, month, day)` constructor: years
0–99 are offset by 1900, the 0-based month is normalized into the
year, and any day value offsets arithmetically from the 1st of the
month (the rollover behavior). For the 4-digit years fed to it by
`parseDate`, the result is never the Invalid Date, so the constructor
is total here. -/
def mkJsDate (year month day : Int) : Int :=
  let fullYear := if 0 ≤ year ∧ year ≤ 99 then 1900 + year else year
  daysFromCivil (fullYear + month.fdiv 12) (month.emod 12 + 1) day

/-- Numeric value of a decimal digit list (most significant first). -/
def digitsToNat (l : List Char) : Nat :=
  l.foldl (fun n c => n * 10 + (c.toNat - 48)) 0

/-- Gregorian leap-year test. -/
def isLeapYear (y : Int) : Bool :=
  (y.emod 4 == 0 && y.emod 100 != 0) || y.emod 400 == 0

/-- Length of month `m` of year `y`. -/
def daysInMonth (y : Int) (m : Nat) : Nat :=
  if m = 2 then (if isLeapYear y then 29 else 28)
  else if m = 4 ∨ m = 6 ∨ m = 9 ∨ m = 11 then 30
  else 31

/-- Model of the JS builtin date-string parser (`new Date(string)`)
behind `parseDate`'s first attempt, restricted to the plain ISO
`YYYY-MM-DD` calendar-date form the spec names; a string of that shape
with an out-of-range month or day is rejected (Invalid Date), as V8
does. Other environment-recognized formats are not modelled: no claim
depends on them, and every date string a claim exercises is either of
this form or of the `DD/MM/YYYY` form. -/
def parseISODate (s : String) : Option Int :=
  match s.data with
  | [y1, y2, y3, y4, '-', m1, m2, '-', d1, d2] =>
    if ([y1, y2, y3, y4, m1, m2, d1, d2]).all Char.isDigit then
      let y := digitsToNat [y1, y2, y3, y4]
      let m := digitsToNat [m1, m2]
      let d := digitsToNat [d1, d2]
      if 1 ≤ m ∧ m ≤ 12 ∧ 1 ≤ d ∧ d ≤ daysInMonth y m then
        some (daysFromCivil y m d)
      else none
    else none
  | _ => none

/-- Split a character list at every slash — the shape test behind the
strict `DD/MM/YYYY` regular expression. -/
def splitSlash : List Char → List (List Char)
  | [] => [[]]
  | c :: rest =>
    if c = '/' then [] :: splitSlash rest
    else
      match splitSlash rest with
      | g :: gs => (c :: g) :: gs
      | [] => [[c]]

/-- The anchored `(\d{1,2})/(\d{1,2})/(\d{4})` match of `parseDate`:
three all-digit groups of width 1–2, 1–2 and exactly 4. -/
def ddmmyyyyMatch (s : String) : Option (Nat × Nat × Nat) :=
  match splitSlash s.data with
  | [ds, ms, ys] =>
    if 1 ≤ ds.length ∧ ds.length ≤ 2 ∧ ds.all Char.isDigit ∧
        1 ≤ ms.length ∧ ms.length ≤ 2 ∧ ms.all Char.isDigit ∧
        ys.length = 4 ∧ ys.all Char.isDigit then
      some (digitsToNat ds, digitsToNat ms, digitsToNat ys)
    else none
  | _ => none

/-- `parseDate` from the CSV module: trim, try the direct date parse,
then fall back to the `DD/MM/YYYY` pattern, feeding
`new Date(year, month - 1, day)`. The `isNaN` guard after the
constructor cannot fire for 4-digit years, so a pattern match always
produces a date. -/
def parseDate (dateString : String) : Option Int :=
  let trimmed := jsTrim dateString
  match parseISODate trimmed with
  | some date => some date
  | none =>
    match ddmmyyyyMatch trimmed with
    | some (day, month, year) => some (mkJsDate year ((month : Int) - 1) day)
    | none => none

/-- Value of a parsed `intPart.fracPart` literal with optional sign. -/
def floatVal (neg : Bool) (ip fp : List Char) : ℚ :=
  let magnitude : ℚ := (digitsToNat ip : ℚ) + (digitsToNat fp : ℚ) / ((10 : ℚ) ^ fp.length)
  if neg then -magnitude else magnitude

/-- Model of the JS builtin `parseFloat`: skip leading whitespace, an
optional sign, then the longest `digits[.digits]` prefix of the rest;
`none` (NaN) when that prefix has no digit. Exponents and `Infinity`
are not modelled — no amount cell in the spec or the claims uses
them. -/
def parseFloatJS (s : String) : Option ℚ :=
  let cs := s.data.dropWhile Char.isWhitespace
  let signed :=
    match cs with
    | '-' :: rest => (true, rest)
    | '+' :: rest => (false, rest)
    | _ => (false, cs)
  let rest := signed.2
  let ip := rest.takeWhile Char.isDigit
  let fp :=
    match rest.drop ip.length with
    | '.' :: tl => tl.takeWhile Char.isDigit
    | _ => []
  if ip.length = 0 ∧ fp.length = 0 then none
  else some (floatVal signed.1 ip fp)

/-- `mapColumnsToTransaction`: `null` when the row is too short for
the largest mapped index, otherwise the three extracted cells. -/
def mapColumnsToTransaction (row : List String) (mapping : ColumnMapping) :
    Option MappedRow :=
  let maxIndex := max mapping.dateColumn (max mapping.descriptionColumn mapping.amountColumn)
  if row.length ≤ maxIndex then none
  else some
    { date := row.getD mapping.dateColumn ""
      description := row.getD mapping.descriptionColumn ""
      amount := row.getD mapping.amountColumn "" }

/-- `validateTransactionRow` from the CSV module: date first, then
trimmed description, then amount; the first failure decides the
error. -/
def validateTransactionRow (mapped : MappedRow) : ValidationResult :=
  match parseDate mapped.date with
  | none => { success := false, data := none, error := some "Invalid date format" }
  | some date =>
    let description := jsTrim mapped.description
    if description.length = 0 then
      { success := false, data := none, error := some "Description cannot be empty" }
    else
      match parseFloatJS mapped.amount with
      | none => { success := false, data := none, error := some "Invalid amount format" }
      | some amount =>
        { success := true
          data := some { date := date, description := description, amount := amount }
          error := none }

/-- The `forEach` body of `parseCSVToTransactions`, one row at a time.
The loop appends each verdict to `valid`/`invalid` in input order; the
structural recursion reproduces the same lists by prepending each
verdict to the verdicts of the later rows. -/
def parseCSVFrom (mapping : ColumnMapping) : Nat → List (List String) → ParseResult
  | _, [] => { valid := [], invalid := [] }
  | index, row :: rest =>
    let result := parseCSVFrom mapping (index + 1) rest
    match mapColumnsToTransaction row mapping with
    | none =>
      { valid := result.valid
        invalid := { rowIndex := index, row := row,
                     error := "Could not map columns (row too short)" } :: result.invalid }
    | some mapped =>
      let validation := validateTransactionRow mapped
      match validation.success, validation.data with
      | true, some data => { valid := data :: result.valid, invalid := result.invalid }
      | _, _ =>
        { valid := result.valid
          invalid := { rowIndex := index, row := row,
                       error := validation.error.getD "Validation failed" } :: result.invalid }

/-- `parseCSVToTransactions` from the CSV module. -/
def parseCSVToTransactions (rows : List (List String)) (mapping : ColumnMapping) :
    ParseResult :=
  parseCSVFrom mapping 0 rows

/-- The verdict the loop body of `parseCSVToTransactions` reaches on a
single row (used to state the per-row characterization). -/
def rowOutcome (mapping : ColumnMapping) (row : List String) :
    Except String ValidatedTransaction :=
  match mapColumnsToTransaction row mapping with
  | none => .error "Could not map columns (row too short)"
  | some mapped =>
    let validation := validateTransactionRow mapped
    match validation.success, validation.data with
    | true, some data => .ok data
    | _, _ => .error (validation.error.getD "Validation failed")

/-! ## Filter composition (`src/domain/types.ts`) -/

/-- `composeFilters` from the filter module: left-to-right `reduce` of
the stages over the input list. -/
def composeFilters (transactions : List Transaction)
    (filters : List (List Transaction → List Transaction)) :
    List Transaction :=
  filters.foldl (fun acc filterFn => filterFn acc) transactions

/-! ## Spec-side definitions used to state the claims -/

/-- The magnitudes (`|amount|`) of a transaction list, in input
order. -/
def magnitudes (transactions : List Transaction) : List ℚ :=
  transactions.map (fun t => mabs t.amount)

/-- The ascending-sorted magnitudes of a transaction list. -/
def sortedMagnitudes (transactions : List Transaction) : List ℚ :=
  (magnitudes transactions).insertionSort (· ≤ ·)

/-- Modelled from the spec: the middle value of an ascending-sorted
value list — the average of the two middle values when the length is
even. -/
def middleValue (sorted : List ℚ) : ℚ :=
  if sorted.length % 2 = 0 then
    (sorted.getD (sorted.length / 2 - 1) 0 + sorted.getD (sorted.length / 2) 0) / 2
  else
    sorted.getD (sorted.length / 2) 0

/-- Modelled from the spec: Q1, the magnitude at position
`floor(0.25 * n)` of the magnitude-sorted list. -/
def quartile1 (transactions : List Transaction) : ℚ :=
  (sortedMagnitudes transactions).getD (transactions.length / 4) 0

/-- Modelled from the spec: Q3, the magnitude at position
`floor(0.75 * n)` of the magnitude-sorted list. -/
def quartile3 (transactions : List Transaction) : ℚ :=
  (sortedMagnitudes transactions).getD (3 * transactions.length / 4) 0

/-- The categoryId rewrite that maps the uncategorized sentinel onto
the literal category id 0 (used to state the sentinel-collision
claim). -/
def collapseUncategorized (t : Transaction) : Transaction :=
  { t with categoryId := some (t.categoryId.getD 0) }

/-- Modelled from the spec: the Pareto-prefix selection rule — all
ranked entries whose cumulative percentage is ≤ 80; if that prefix is
empty and the ranking is not, the top-ranked entry alone; otherwise,
if the prefix is shorter than the full ranking, the single next-ranked
entry appended. -/
def paretoSelectionSpec (ranking : List CategorySpending) : List CategorySpending :=
  let pfx := ranking.filter (fun c => c.cumulativePercentage ≤ 80)
  if pfx = [] ∧ ranking ≠ [] then
    ranking.take 1
  else if pfx.length < ranking.length then
    pfx ++ (ranking.drop pfx.length).take 1
  else
    pfx

/-- Modelled from the spec: the ordered date-parsing fallback chain —
a direct date-time parse of the trimmed cell first and, only if that
fails, the strict `DD/MM/YYYY` pattern with the month converted from
1-based to 0-based. -/
def parseDateSpec (s : String) : Option Int :=
  match parseISODate (jsTrim s) with
  | some d => some d
  | none =>
      (ddmmyyyyMatch (jsTrim s)).map
        (fun g => mkJsDate g.2.2 ((g.2.1 : Int) - 1) g.1)

/-- Modelled from the spec (§4.4 row state machine): the fixed stage
order — column-mapping length check, then date parsing, then
trimmed-description non-emptiness, then numeric amount parse — where
the first failing stage decides the recorded error and a fully
successful row yields the date, the trimmed description and the
parsed amount. -/
def rowOutcomeSpec (mapping : ColumnMapping) (row : List String) :
    Except String ValidatedTransaction :=
  if row.length ≤ max mapping.dateColumn (max mapping.descriptionColumn mapping.amountColumn) then
    .error "Could not map columns (row too short)"
  else
    match parseDate (row.getD mapping.dateColumn "") with
    | none => .error "Invalid date format"
    | some date =>
        if jsTrim (row.getD mapping.descriptionColumn "") = "" then
          .error "Description cannot be empty"
        else
          match parseFloatJS (row.getD mapping.amountColumn "") with
          | none => .error "Invalid amount format"
          | some amount =>
              .ok { date := date
                    description := jsTrim (row.getD mapping.descriptionColumn "")
                    amount := amount }

/-- The successful payload of a row verdict, `none` on failure. -/
def outcomeValue : Except String ValidatedTransaction → Option ValidatedTransaction
  | .ok v => some v
  | .error _ => none

/-! ## General helper lemmas -/

theorem foldl_add_eq (l : List ℚ) : ∀ s : ℚ, l.foldl (fun a b => a + b) s = s + l.sum := by
  induction l with
  | nil => intro s; simp
  | cons a t ih => intro s; simp only [List.foldl_cons, List.sum_cons, ih, add_assoc]

theorem mabs_nonneg (x : ℚ) : 0 ≤ mabs x := by
  unfold mabs; split <;> linarith

theorem jsMin_le_left (a b : ℚ) : jsMin a b ≤ a := by
  unfold jsMin; split
  · exact le_refl a
  · exact le_of_not_le (by assumption)

theorem jsMin_le_right (a b : ℚ) : jsMin a b ≤ b := by
  unfold jsMin; split
  · assumption
  · exact le_refl b

theorem jsMin_eq_or (a b : ℚ) : jsMin a b = a ∨ jsMin a b = b := by
  unfold jsMin; split
  · exact Or.inl rfl
  · exact Or.inr rfl

theorem jsMax_le_left (a b : ℚ) : a ≤ jsMax a b := by
  unfold jsMax; split
  · exact le_refl a
  · exact le_of_not_le (by assumption)

theorem jsMax_le_right (a b : ℚ) : b ≤ jsMax a b := by
  unfold jsMax; split
  · assumption
  · exact le_refl b

theorem jsMax_eq_or (a b : ℚ) : jsMax a b = a ∨ jsMax a b = b := by
  unfold jsMax; split
  · exact Or.inl rfl
  · exact Or.inr rfl

theorem foldl_jsMin_le_init : ∀ (l : List ℚ) (a : ℚ), l.foldl jsMin a ≤ a := by
  intro l
  induction l with
  | nil => intro a; simp
  | cons b t ih =>
      intro a
      exact le_trans (ih (jsMin a b)) (jsMin_le_left a b)

theorem foldl_jsMin_le : ∀ (l : List ℚ) (a x : ℚ), x ∈ l → l.foldl jsMin a ≤ x := by
  intro l
  induction l with
  | nil => intro a x hx; cases hx
  | cons b t ih =>
      intro a x hx
      rcases List.mem_cons.1 hx with h | h
      · subst h
        exact le_trans (foldl_jsMin_le_init t (jsMin a x)) (jsMin_le_right a x)
      · exact ih (jsMin a b) x h

theorem foldl_jsMin_mem : ∀ (l : List ℚ) (a : ℚ), l.foldl jsMin a = a ∨ l.foldl jsMin a ∈ l := by
  intro l
  induction l with
  | nil => intro a; exact Or.inl rfl
  | cons b t ih =>
      intro a
      rcases ih (jsMin a b) with h | h
      · rcases jsMin_eq_or a b with h' | h'
        · exact Or.inl (h.trans h')
        · exact Or.inr (List.mem_cons.2 (Or.inl (h.trans h')))
      · exact Or.inr (List.mem_cons.2 (Or.inr h))

theorem foldl_jsMax_le_init : ∀ (l : List ℚ) (a : ℚ), a ≤ l.foldl jsMax a := by
  intro l
  induction l with
  | nil => intro a; simp
  | cons b t ih =>
      intro a
      exact le_trans (jsMax_le_left a b) (ih (jsMax a b))

theorem foldl_jsMax_le : ∀ (l : List ℚ) (a x : ℚ), x ∈ l → x ≤ l.foldl jsMax a := by
  intro l
  induction l with
  | nil => intro a x hx; cases hx
  | cons b t ih =>
      intro a x hx
      rcases List.mem_cons.1 hx with h | h
      · subst h
        exact le_trans (jsMax_le_right a x) (foldl_jsMax_le_init t (jsMax a x))
      · exact ih (jsMax a b) x h

theorem foldl_jsMax_mem : ∀ (l : List ℚ) (a : ℚ), l.foldl jsMax a = a ∨ l.foldl jsMax a ∈ l := by
  intro l
  induction l with
  | nil => intro a; exact Or.inl rfl
  | cons b t ih =>
      intro a
      rcases ih (jsMax a b) with h | h
      · rcases jsMax_eq_or a b with h' | h'
        · exact Or.inl (h.trans h')
        · exact Or.inr (List.mem_cons.2 (Or.inl (h.trans h')))
      · exact Or.inr (List.mem_cons.2 (Or.inr h))

theorem listMin_mem : ∀ l : List ℚ, l ≠ [] → listMin l ∈ l := by
  intro l hl
  match l with
  | [] => exact absurd rfl hl
  | a :: t =>
      show t.foldl jsMin a ∈ a :: t
      rcases foldl_jsMin_mem t a with h | h
      · rw [h]; exact List.mem_cons_self a t
      · exact List.mem_cons.2 (Or.inr h)

theorem listMin_le : ∀ (l : List ℚ) (x : ℚ), x ∈ l → listMin l ≤ x := by
  intro l x hx
  match l with
  | [] => cases hx
  | a :: t =>
      show t.foldl jsMin a ≤ x
      rcases List.mem_cons.1 hx with h | h
      · rw [h]; exact foldl_jsMin_le_init t a
      · exact foldl_jsMin_le t a x h

theorem listMax_mem : ∀ l : List ℚ, l ≠ [] → listMax l ∈ l := by
  intro l hl
  match l with
  | [] => exact absurd rfl hl
  | a :: t =>
      show t.foldl jsMax a ∈ a :: t
      rcases foldl_jsMax_mem t a with h | h
      · rw [h]; exact List.mem_cons_self a t
      · exact List.mem_cons.2 (Or.inr h)

theorem listMax_le : ∀ (l : List ℚ) (x : ℚ), x ∈ l → x ≤ listMax l := by
  intro l x hx
  match l with
  | [] => cases hx
  | a :: t =>
      show x ≤ t.foldl jsMax a
      rcases List.mem_cons.1 hx with h | h
      · rw [h]; exact foldl_jsMax_le_init t a
      · exact foldl_jsMax_le t a x h

/-! ## Claim theorems -/

/-- C8: `composeFilters` with an empty stage list is the identity, two
stages compose left-to-right (`g` consumes `f`'s output), and in
general it is the left-to-right fold of the stage list over the
input. -/
theorem composeFilters_fold_spec :
    (∀ txs : List Transaction, composeFilters txs [] = txs) ∧
    (∀ (txs : List Transaction) (f g : List Transaction → List Transaction),
      composeFilters txs [f, g] = g (f txs)) ∧
    (∀ (txs : List Transaction) (stages : List (List Transaction → List Transaction)),
      composeFilters txs stages = stages.foldl (fun acc stage => stage acc) txs) :=
  ⟨fun _ => rfl, fun _ _ _ => rfl, fun _ _ => rfl⟩

/-- C4: `calculateSpendingStats` returns the all-zero record on `[]`;
on non-empty input, `total` is the sum of the magnitudes, `average` is
`total / count`, `median` is the middle value of the ascending-sorted
magnitudes (average of the two middle values for even counts),
`min`/`max` are the least and greatest magnitude, and `count` is the
list length. -/
theorem calculateSpendingStats_spec :
    calculateSpendingStats []
      = { total := 0, average := 0, median := 0, min := 0, max := 0, count := 0 } ∧
    ∀ transactions : List Transaction, transactions ≠ [] →
      (calculateSpendingStats transactions).total = (magnitudes transactions).sum ∧
      (calculateSpendingStats transactions).average
        = (magnitudes transactions).sum / (transactions.length : ℚ) ∧
      (calculateSpendingStats transactions).median = middleValue (sortedMagnitudes transactions) ∧
      (calculateSpendingStats transactions).min ∈ magnitudes transactions ∧
      (∀ x ∈ magnitudes transactions, (calculateSpendingStats transactions).min ≤ x) ∧
      (calculateSpendingStats transactions).max ∈ magnitudes transactions ∧
      (∀ x ∈ magnitudes transactions, x ≤ (calculateSpendingStats transactions).max) ∧
      (calculateSpendingStats transactions).count = transactions.length := by
  constructor
  · rfl
  · intro transactions hne
    have hlen : ¬ transactions.length = 0 := by
      simpa [List.length_eq_zero] using hne
    have hmag : magnitudes transactions ≠ [] := by
      simpa [magnitudes, List.map_eq_nil_iff] using hne
    simp only [calculateSpendingStats, if_neg hlen]
    refine ⟨?_, ?_, ?_, ?_, ?_, ?_, ?_, ?_⟩
    · simpa [magnitudes] using foldl_add_eq (magnitudes transactions) 0
    · simp only [List.length_map]
      rw [show (transactions.map fun t => mabs t.amount) = magnitudes transactions from rfl,
        foldl_add_eq, zero_add]
    · rfl
    · exact listMin_mem _ hmag
    · intro x hx; exact listMin_le _ x hx
    · exact listMax_mem _ hmag
    · intro x hx; exact listMax_le _ x hx
    · trivial

/-- Witness: `calculateSpendingStats_spec` applied to a concrete
two-transaction list (its non-emptiness hypothesis discharged
there). -/
theorem calculateSpendingStats_spec_witness :
    (calculateSpendingStats
        [{ id := 1, date := 0, description := "a", amount := -3, categoryId := none },
          { id := 2, date := 0, description := "b", amount := 5, categoryId := some 1 }]).total
      = (magnitudes
          [{ id := 1, date := 0, description := "a", amount := -3, categoryId := none },
            { id := 2, date := 0, description := "b", amount := 5, categoryId := some 1 }]).sum ∧
    (calculateSpendingStats
        [{ id := 1, date := 0, description := "a", amount := -3, categoryId := none },
          { id := 2, date := 0, description := "b", amount := 5, categoryId := some 1 }]).count = 2 :=
  ⟨(calculateSpendingStats_spec.2
      [{ id := 1, date := 0, description := "a", amount := -3, categoryId := none },
        { id := 2, date := 0, description := "b", amount := 5, categoryId := some 1 }]
      (List.cons_ne_nil _ _)).1,
    (calculateSpendingStats_spec.2
      [{ id := 1, date := 0, description := "a", amount := -3, categoryId := none },
        { id := 2, date := 0, description := "b", amount := 5, categoryId := some 1 }]
      (List.cons_ne_nil _ _)).2.2.2.2.2.2.2⟩

theorem map_mabs_orderedInsert (a : Transaction) :
    ∀ l : List Transaction,
      (List.orderedInsert (fun x y => mabs x.amount ≤ mabs y.amount) a l).map
          (fun t => mabs t.amount)
        = List.orderedInsert (· ≤ ·) (mabs a.amount) (l.map (fun t => mabs t.amount)) := by
  intro l
  induction l with
  | nil => rfl
  | cons b t ih =>
      by_cases h : mabs a.amount ≤ mabs b.amount
      · simp [List.orderedInsert, h]
      · simp [List.orderedInsert, h, ih]

theorem map_mabs_insertionSort :
    ∀ l : List Transaction,
      (List.insertionSort (fun x y => mabs x.amount ≤ mabs y.amount) l).map
          (fun t => mabs t.amount)
        = (l.map (fun t => mabs t.amount)).insertionSort (· ≤ ·) := by
  intro l
  induction l with
  | nil => rfl
  | cons b t ih => simp [List.insertionSort, map_mabs_orderedInsert, ih]

theorem getD_map_mabs :
    ∀ (l : List Transaction) (i : Nat),
      (l.map (fun t => mabs t.amount)).getD i 0
        = mabs (l.getD i defaultTransaction).amount := by
  intro l
  induction l with
  | nil =>
      intro i
      show (0 : ℚ) = mabs defaultTransaction.amount
      simp [mabs, defaultTransaction]
  | cons a t ih =>
      intro i
      cases i with
      | zero => rfl
      | succ n => exact ih n

/-- C5: `findOutliers` is `[]` for fewer than 4 transactions whatever
the threshold; for `n ≥ 4`, with Q1 and Q3 the magnitudes at positions
`floor(0.25 n)` and `floor(0.75 n)` of the magnitude-sorted list, it
returns exactly the transactions whose magnitude strictly exceeds
`Q3 + threshold * (Q3 - Q1)` — in particular it never flags a low-side
transaction. -/
theorem findOutliers_spec :
    ∀ (transactions : List Transaction) (threshold : ℚ),
      (transactions.length < 4 → findOutliers transactions threshold = []) ∧
      (4 ≤ transactions.length →
        findOutliers transactions threshold
          = transactions.filter (fun t =>
              quartile3 transactions
                  + threshold * (quartile3 transactions - quartile1 transactions)
                < mabs t.amount) ∧
        ∀ t ∈ findOutliers transactions threshold,
          quartile3 transactions
              + threshold * (quartile3 transactions - quartile1 transactions)
            < mabs t.amount) := by
  intro transactions threshold
  have hq1 :
      mabs ((List.insertionSort (fun x y => mabs x.amount ≤ mabs y.amount)
          transactions).getD (transactions.length / 4) defaultTransaction).amount
        = quartile1 transactions := by
    rw [← getD_map_mabs, map_mabs_insertionSort]; rfl
  have hq3 :
      mabs ((List.insertionSort (fun x y => mabs x.amount ≤ mabs y.amount)
          transactions).getD (3 * transactions.length / 4) defaultTransaction).amount
        = quartile3 transactions := by
    rw [← getD_map_mabs, map_mabs_insertionSort]; rfl
  constructor
  · intro h
    simp [findOutliers, h]
  · intro h
    have hlt : ¬ transactions.length < 4 := not_lt.2 h
    have hfil :
        findOutliers transactions threshold
          = transactions.filter (fun t =>
              quartile3 transactions
                  + threshold * (quartile3 transactions - quartile1 transactions)
                < mabs t.amount) := by
      simp only [findOutliers, if_neg hlt]
      simp only [hq1, hq3]
    refine ⟨hfil, ?_⟩
    intro t ht
    rw [hfil] at ht
    exact of_decide_eq_true (List.mem_filter.1 ht).2

/-- The 5-transaction demonstration list with magnitudes
`100, 110, 120, 130, 1000`. -/
def outlierDemo : List Transaction :=
  [{ id := 1, date := 0, description := "a", amount := 100, categoryId := none },
    { id := 2, date := 0, description := "b", amount := 110, categoryId := none },
    { id := 3, date := 0, description := "c", amount := 120, categoryId := none },
    { id := 4, date := 0, description := "d", amount := 130, categoryId := none },
    { id := 5, date := 0, description := "e", amount := 1000, categoryId := none }]

/-- Witness: `findOutliers_spec` applied to a 2-element list (the
small-input branch) and to `outlierDemo` (the quartile branch). -/
theorem findOutliers_spec_witness :
    findOutliers
        [{ id := 1, date := 0, description := "a", amount := 7, categoryId := none },
          { id := 2, date := 0, description := "b", amount := 9000, categoryId := none }]
        (3 / 2)
      = [] ∧
    findOutliers outlierDemo (3 / 2)
      = outlierDemo.filter (fun t =>
          quartile3 outlierDemo + (3 / 2) * (quartile3 outlierDemo - quartile1 outlierDemo)
            < mabs t.amount) :=
  ⟨(findOutliers_spec _ (3 / 2)).1 (by decide),
    ((findOutliers_spec outlierDemo (3 / 2)).2 (by decide)).1⟩

theorem mapGet_map_collapse :
    ∀ (m : List (Int × List Transaction)) (k : Int),
      mapGet (m.map (fun p => (p.1, p.2.map collapseUncategorized))) k
        = (mapGet m k).map (fun l => l.map collapseUncategorized) := by
  intro m
  induction m with
  | nil => intro k; rfl
  | cons p rest ih =>
      intro k
      obtain ⟨k', v⟩ := p
      by_cases h : k' = k
      · simp [mapGet, h]
      · simp [mapGet, h, ih]

theorem mapSet_map_collapse :
    ∀ (m : List (Int × List Transaction)) (k : Int) (v : List Transaction),
      mapSet (m.map (fun p => (p.1, p.2.map collapseUncategorized))) k
          (v.map collapseUncategorized)
        = (mapSet m k v).map (fun p => (p.1, p.2.map collapseUncategorized)) := by
  intro m
  induction m with
  | nil => intro k v; rfl
  | cons p rest ih =>
      intro k v
      obtain ⟨k', v'⟩ := p
      by_cases h : k' = k
      · simp [mapSet, h]
      · simp [mapSet, h, ih]

theorem key_collapse (t : Transaction) :
    (collapseUncategorized t).categoryId.getD 0 = t.categoryId.getD 0 := by
  cases h : t.categoryId <;> simp [collapseUncategorized, h]

theorem foldl_group_collapse :
    ∀ (txs : List Transaction) (m : List (Int × List Transaction)),
      (txs.map collapseUncategorized).foldl
          (fun m t =>
            let categoryId := t.categoryId.getD 0
            let existing := (mapGet m categoryId).getD []
            mapSet m categoryId (existing ++ [t]))
          (m.map (fun p => (p.1, p.2.map collapseUncategorized)))
        = (txs.foldl
            (fun m t =>
              let categoryId := t.categoryId.getD 0
              let existing := (mapGet m categoryId).getD []
              mapSet m categoryId (existing ++ [t])) m).map
            (fun p => (p.1, p.2.map collapseUncategorized)) := by
  intro txs
  induction txs with
  | nil => intro m; rfl
  | cons t rest ih =>
      intro m
      simp only [List.map_cons, List.foldl_cons]
      have hstep :
          (let categoryId := (collapseUncategorized t).categoryId.getD 0
           let existing :=
             (mapGet (m.map (fun p => (p.1, p.2.map collapseUncategorized))) categoryId).getD []
           mapSet (m.map (fun p => (p.1, p.2.map collapseUncategorized))) categoryId
             (existing ++ [collapseUncategorized t]))
          = ((let categoryId := t.categoryId.getD 0
              let existing := (mapGet m categoryId).getD []
              mapSet m categoryId (existing ++ [t])).map
              (fun p => (p.1, p.2.map collapseUncategorized))) := by
        simp only [key_collapse, mapGet_map_collapse]
        cases hg : mapGet m (t.categoryId.getD 0) with
        | none =>
            simpa [hg] using mapSet_map_collapse m (t.categoryId.getD 0) [t]
        | some l =>
            simpa [hg] using mapSet_map_collapse m (t.categoryId.getD 0) (l ++ [t])
      rw [hstep, ih]

theorem transactionsByCategory_collapse (txs : List Transaction) :
    transactionsByCategory (txs.map collapseUncategorized)
      = (transactionsByCategory txs).map
          (fun p => (p.1, p.2.map collapseUncategorized)) := by
  unfold transactionsByCategory
  simpa using foldl_group_collapse txs []

theorem calculateSpendingStats_collapse (l : List Transaction) :
    calculateSpendingStats (l.map collapseUncategorized) = calculateSpendingStats l := by
  simp only [calculateSpendingStats, List.length_map, List.map_map]
  rfl

theorem categoryTotals_collapse (txs : List Transaction) :
    categoryTotals (txs.map collapseUncategorized) = categoryTotals txs := by
  unfold categoryTotals
  rw [List.foldl_map]
  rfl

/-- C9: `calculateStatsByCategory` and the grouping of
`calculateParetoAnalysis` both key an absent `categoryId` as the group
key 0, so forcing every absent `categoryId` to the literal id 0
changes neither result, and a transaction with `categoryId = 0` lands
in one single merged group together with an uncategorized one. -/
theorem uncategorized_collides_with_zero :
    (∀ txs : List Transaction,
      calculateStatsByCategory (txs.map collapseUncategorized)
        = calculateStatsByCategory txs) ∧
    (∀ (txs : List Transaction) (cats : List Category),
      calculateParetoAnalysis (txs.map collapseUncategorized) cats
        = calculateParetoAnalysis txs cats) ∧
    (∀ t1 t2 : Transaction, t1.categoryId = none → t2.categoryId = some 0 →
      (calculateStatsByCategory [t1, t2]).length = 1 ∧
      (calculateParetoAnalysis [t1, t2] []).categories.length = 1) := by
  refine ⟨?_, ?_, ?_⟩
  · intro txs
    unfold calculateStatsByCategory
    rw [transactionsByCategory_collapse, List.map_map]
    apply List.map_congr_left
    intro p _
    show (p.1, calculateSpendingStats (p.2.map collapseUncategorized))
        = (p.1, calculateSpendingStats p.2)
    rw [calculateSpendingStats_collapse]
  · intro txs cats
    unfold calculateParetoAnalysis
    rw [List.length_map, categoryTotals_collapse]
  · intro t1 t2 h1 h2
    have htbc : transactionsByCategory [t1, t2] = [(0, [t1, t2])] := by
      simp [transactionsByCategory, h1, h2, mapGet, mapSet]
    have htot : (categoryTotals [t1, t2]).length = 1 := by
      simp [categoryTotals, h1, h2, mapGet, mapSet]
    constructor
    · simp [calculateStatsByCategory, htbc]
    · have hlen : ¬ ([t1, t2] : List Transaction).length = 0 := by simp
      simp only [calculateParetoAnalysis, if_neg hlen]
      show (paretoRanking (categoryTotals [t1, t2]) []).length = 1
      unfold paretoRanking
      rw [show ∀ (T : ℚ) (acc : ℚ) (l : List CategorySpending),
            (setCumulative T acc l).length = l.length from ?_]
      · rw [List.length_insertionSort, show (paretoEntries (categoryTotals [t1, t2]) []).length
              = (categoryTotals [t1, t2]).length from List.length_map _ _]
        exact htot
      · intro T
        intro acc l
        induction l generalizing acc with
        | nil => rfl
        | cons c rest ih => simp [setCumulative, ih]

/-- Witness: `uncategorized_collides_with_zero` applied to a concrete
uncategorized / id-0 pair (both category hypotheses discharged by
`rfl`). -/
theorem uncategorized_collides_with_zero_witness :
    (calculateStatsByCategory
        [{ id := 1, date := 0, description := "u", amount := 4, categoryId := none },
          { id := 2, date := 0, description := "v", amount := 6, categoryId := some 0 }]).length
      = 1 ∧
    (calculateParetoAnalysis
        [{ id := 1, date := 0, description := "u", amount := 4, categoryId := none },
          { id := 2, date := 0, description := "v", amount := 6, categoryId := some 0 }]
        []).categories.length = 1 :=
  uncategorized_collides_with_zero.2.2 _ _ rfl rfl

/-! ## Pareto invariants: monotone cumulative percentages, prefixes -/

theorem setCumulative_map_totalAmount (T : ℚ) :
    ∀ (acc : ℚ) (l : List CategorySpending),
      (setCumulative T acc l).map (fun c => c.totalAmount)
        = l.map (fun c => c.totalAmount) := by
  intro acc l
  induction l generalizing acc with
  | nil => rfl
  | cons c rest ih => simp [setCumulative, ih]

theorem mapSet_mem {β : Type} :
    ∀ (m : List (Int × β)) (k : Int) (v : β) (p : Int × β),
      p ∈ mapSet m k v → p = (k, v) ∨ p ∈ m := by
  intro m
  induction m with
  | nil =>
      intro k v p hp
      exact Or.inl (by simpa [mapSet] using hp)
  | cons q rest ih =>
      intro k v p hp
      obtain ⟨k', v'⟩ := q
      by_cases h : k' = k
      · rw [show mapSet ((k', v') :: rest) k v = (k, v) :: rest from by simp [mapSet, h]] at hp
        rcases List.mem_cons.1 hp with h1 | h1
        · exact Or.inl h1
        · exact Or.inr (List.mem_cons.2 (Or.inr h1))
      · rw [show mapSet ((k', v') :: rest) k v = (k', v') :: mapSet rest k v from by
            simp [mapSet, h]] at hp
        rcases List.mem_cons.1 hp with h1 | h1
        · exact Or.inr (List.mem_cons.2 (Or.inl h1))
        · rcases ih k v p h1 with h2 | h2
          · exact Or.inl h2
          · exact Or.inr (List.mem_cons.2 (Or.inr h2))

theorem mapGet_mem {β : Type} :
    ∀ (m : List (Int × β)) (k : Int) (v : β), mapGet m k = some v → (k, v) ∈ m := by
  intro m
  induction m with
  | nil => intro k v h; simp [mapGet] at h
  | cons q rest ih =>
      intro k v h
      obtain ⟨k', v'⟩ := q
      unfold mapGet at h
      split_ifs at h with hk
      · injection h with hv
        subst hk; subst hv
        exact List.mem_cons_self _ _
      · exact List.mem_cons.2 (Or.inr (ih k v h))

theorem categoryTotals_nonneg (txs : List Transaction) :
    ∀ p ∈ categoryTotals txs, 0 ≤ p.2.1 := by
  have aux : ∀ (txs : List Transaction) (m : List (Int × (ℚ × Nat))),
      (∀ p ∈ m, 0 ≤ p.2.1) →
      ∀ p ∈ txs.foldl
          (fun m t =>
            let categoryId := t.categoryId.getD 0
            let existing := (mapGet m categoryId).getD (0, 0)
            mapSet m categoryId (existing.1 + mabs t.amount, existing.2 + 1)) m,
        0 ≤ p.2.1 := by
    intro txs
    induction txs with
    | nil => intro m hm p hp; exact hm p hp
    | cons t rest ih =>
        intro m hm p hp
        simp only [List.foldl_cons] at hp
        refine ih _ ?_ p hp
        intro q hq
        rcases mapSet_mem _ _ _ q hq with h | h
        · have hex : 0 ≤ ((mapGet m (t.categoryId.getD 0)).getD (0, 0)).1 := by
            cases hg : mapGet m (t.categoryId.getD 0) with
            | none => simp
            | some v => simpa using hm _ (mapGet_mem _ _ _ hg)
          rw [h]
          exact add_nonneg hex (mabs_nonneg t.amount)
        · exact hm q h
  intro p hp
  exact aux txs [] (by intro q hq; cases hq) p hp

theorem chain'_cum_head :
    ∀ (l : List CategorySpending) (a : CategorySpending),
      List.Chain' (fun x y => x.cumulativePercentage ≤ y.cumulativePercentage) (a :: l) →
      ∀ b ∈ l, a.cumulativePercentage ≤ b.cumulativePercentage := by
  intro l
  induction l with
  | nil => intro a _ b hb; cases hb
  | cons c rest ih =>
      intro a h b hb
      have h1 := (List.chain'_cons.1 h).1
      have h2 := (List.chain'_cons.1 h).2
      rcases List.mem_cons.1 hb with hb1 | hb1
      · exact hb1 ▸ h1
      · exact le_trans h1 (ih c h2 b hb1)

theorem chain'_cum_pairwise :
    ∀ l : List CategorySpending,
      List.Chain' (fun x y => x.cumulativePercentage ≤ y.cumulativePercentage) l →
      List.Pairwise (fun x y => x.cumulativePercentage ≤ y.cumulativePercentage) l := by
  intro l
  induction l with
  | nil => intro _; exact List.Pairwise.nil
  | cons a rest ih =>
      intro h
      exact List.Pairwise.cons (chain'_cum_head rest a h) (ih (List.chain'_cons'.1 h).2)

theorem setCumulative_chain (T : ℚ) :
    ∀ l : List CategorySpending, (∀ c ∈ l, 0 ≤ c.totalAmount) →
      ∀ acc : ℚ,
        List.Chain' (fun x y => x.cumulativePercentage ≤ y.cumulativePercentage)
          (setCumulative T acc l) := by
  intro l
  induction l with
  | nil => intro _ acc; exact List.chain'_nil
  | cons c rest ih =>
      intro hnn acc
      cases rest with
      | nil =>
          show List.Chain' _ [_]
          exact List.chain'_singleton _
      | cons c2 rest2 =>
          rw [show setCumulative T acc (c :: c2 :: rest2)
              = { c with cumulativePercentage :=
                    if 0 < T then (acc + c.totalAmount) / T * 100 else 0 }
                :: { c2 with cumulativePercentage :=
                      if 0 < T then (acc + c.totalAmount + c2.totalAmount) / T * 100 else 0 }
                :: setCumulative T (acc + c.totalAmount + c2.totalAmount) rest2 from rfl]
          apply List.chain'_cons.2
          constructor
          · show (if 0 < T then (acc + c.totalAmount) / T * 100 else 0)
              ≤ (if 0 < T then (acc + c.totalAmount + c2.totalAmount) / T * 100 else 0)
            by_cases hT : 0 < T
            · rw [if_pos hT, if_pos hT]
              have h2 : 0 ≤ c2.totalAmount := hnn c2 (by simp)
              have hle : (acc + c.totalAmount) / T ≤ (acc + c.totalAmount + c2.totalAmount) / T :=
                (div_le_div_iff_of_pos_right hT).2 (by linarith)
              exact mul_le_mul_of_nonneg_right hle (by norm_num)
            · rw [if_neg hT, if_neg hT]
          · exact ih (fun c' hc' => hnn c' (List.mem_cons.2 (Or.inr hc')))
              (acc + c.totalAmount)

theorem setCumulative_ne_nil (T acc : ℚ) (l : List CategorySpending) (h : l ≠ []) :
    setCumulative T acc l ≠ [] := by
  cases l with
  | nil => exact absurd rfl h
  | cons c rest => simp [setCumulative]

theorem getLast?_cons_ne {α : Type} (a : α) (l : List α) (h : l ≠ []) :
    (a :: l).getLast? = l.getLast? := by
  cases l with
  | nil => exact absurd rfl h
  | cons b rest => exact List.getLast?_cons_cons

theorem setCumulative_getLast (T : ℚ) (hT : 0 < T) :
    ∀ (l : List CategorySpending) (acc : ℚ), l ≠ [] →
      ∃ c, (setCumulative T acc l).getLast? = some c ∧
        c.cumulativePercentage
          = (acc + (l.map (fun x => x.totalAmount)).sum) / T * 100 := by
  intro l
  induction l with
  | nil => intro acc h; exact absurd rfl h
  | cons c rest ih =>
      intro acc _
      cases rest with
      | nil =>
          refine ⟨{ c with cumulativePercentage :=
              if 0 < T then (acc + c.totalAmount) / T * 100 else 0 }, by simp [setCumulative], ?_⟩
          simp [if_pos hT]
      | cons c2 rest2 =>
          obtain ⟨d, hd1, hd2⟩ := ih (acc + c.totalAmount) (by simp)
          refine ⟨d, ?_, ?_⟩
          · rw [show setCumulative T acc (c :: c2 :: rest2)
                = { c with cumulativePercentage :=
                      if 0 < T then (acc + c.totalAmount) / T * 100 else 0 }
                  :: setCumulative T (acc + c.totalAmount) (c2 :: rest2) from rfl]
            rw [getLast?_cons_ne _ _ (setCumulative_ne_nil _ _ _ (by simp))]
            exact hd1
          · rw [hd2]
            simp only [List.map_cons, List.sum_cons]
            ring

theorem monotone_filter_eq_takeWhile :
    ∀ l : List CategorySpending,
      List.Chain' (fun x y => x.cumulativePercentage ≤ y.cumulativePercentage) l →
      l.filter (fun c => c.cumulativePercentage ≤ 80)
        = l.takeWhile (fun c => c.cumulativePercentage ≤ 80) := by
  intro l
  induction l with
  | nil => intro _; rfl
  | cons a rest ih =>
      intro h
      by_cases ha : a.cumulativePercentage ≤ 80
      · have hpa : (decide (a.cumulativePercentage ≤ 80)) = true := decide_eq_true ha
        rw [List.filter_cons, List.takeWhile_cons, if_pos hpa, if_pos hpa,
          ih (List.chain'_cons'.1 h).2]
      · have hpa : (decide (a.cumulativePercentage ≤ 80)) = false := decide_eq_false ha
        rw [List.filter_cons, List.takeWhile_cons, if_neg (by simp [hpa]), if_neg (by simp [hpa])]
        apply List.filter_eq_nil_iff.2
        intro b hb
        have hab := chain'_cum_head rest a h b hb
        simp only [decide_eq_true_eq]
        intro hb80
        exact ha (le_trans hab hb80)

theorem takeWhile_eq_take {α : Type} (p : α → Bool) :
    ∀ l : List α, l.takeWhile p = l.take (l.takeWhile p).length := by
  intro l
  induction l with
  | nil => rfl
  | cons a rest ih =>
      rw [List.takeWhile_cons]
      by_cases h : p a = true
      · rw [if_pos h, List.length_cons, List.take_succ_cons, ← ih]
      · rw [if_neg h]; rfl

theorem takeWhile_next_false {α : Type} (p : α → Bool) :
    ∀ (l : List α) (c : α),
      (l.takeWhile p).length < l.length →
      l[(l.takeWhile p).length]? = some c → p c = false := by
  intro l
  induction l with
  | nil => intro c h; simp at h
  | cons a rest ih =>
      intro c hlen hget
      by_cases h : p a = true
      · rw [List.takeWhile_cons, if_pos h, List.length_cons] at hlen hget
        rw [List.getElem?_cons_succ] at hget
        exact ih c (by simpa using hlen) hget
      · rw [List.takeWhile_cons, if_neg h] at hget
        simp only [List.length_nil, List.getElem?_cons_zero] at hget
        injection hget with hac
        subst hac
        simpa using h

theorem take_concat_getElem {α : Type} (l : List α) (n : Nat) (c : α)
    (h : l[n]? = some c) : l.take n ++ [c] = l.take (n + 1) := by
  rw [List.take_succ, h]
  rfl

theorem drop_take_one {α : Type} :
    ∀ (l : List α) (n : Nat) (c : α), l[n]? = some c → (l.drop n).take 1 = [c] := by
  intro l
  induction l with
  | nil => intro n c h; simp at h
  | cons a rest ih =>
      intro n c h
      cases n with
      | zero =>
          simp only [List.getElem?_cons_zero, Option.some.injEq] at h
          simp [h]
      | succ m =>
          rw [List.drop_succ_cons]
          exact ih m c (by simpa using h)

theorem paretoSelect_eq_spec (ranking : List CategorySpending) :
    paretoSelect ranking = paretoSelectionSpec ranking := by
  rcases ranking with _ | ⟨r, rest⟩
  · rfl
  · simp only [paretoSelect, paretoSelectionSpec]
    by_cases hpfx : (r :: rest).filter (fun c => c.cumulativePercentage ≤ 80) = []
    · rw [if_pos ⟨by rw [hpfx]; rfl, by simp⟩, if_pos ⟨hpfx, by simp⟩]
      simp [hpfx, List.getElem?_cons_zero]
    · have hlen0 : ¬ ((r :: rest).filter (fun c => c.cumulativePercentage ≤ 80)).length = 0 := by
        simpa [List.length_eq_zero] using hpfx
      rw [if_neg (show ¬ (((r :: rest).filter
            (fun c => c.cumulativePercentage ≤ 80)).length = 0
            ∧ 0 < (r :: rest).length) from fun hand => hlen0 hand.1)]
      rw [if_neg (show ¬ ((r :: rest).filter
            (fun c => c.cumulativePercentage ≤ 80) = [] ∧ (r :: rest) ≠ []) from
            fun hand => hpfx hand.1)]
      by_cases hlt :
          ((r :: rest).filter (fun c => c.cumulativePercentage ≤ 80)).length
            < (r :: rest).length
      · rw [if_pos hlt, if_pos hlt]
        obtain ⟨c, hc⟩ :
            ∃ c, (r :: rest)[((r :: rest).filter
              (fun c => c.cumulativePercentage ≤ 80)).length]? = some c :=
          ⟨_, List.getElem?_eq_getElem hlt⟩
        rw [hc, drop_take_one _ _ _ hc]
      · rw [if_neg hlt, if_neg hlt]

theorem paretoSelect_take_form (ranking : List CategorySpending)
    (hchain : List.Chain' (fun x y => x.cumulativePercentage ≤ y.cumulativePercentage) ranking)
    (hne : ranking ≠ []) :
    ∃ k, 1 ≤ k ∧ paretoSelect ranking = ranking.take k := by
  have hft := monotone_filter_eq_takeWhile ranking hchain
  have hpfx_take :
      ranking.filter (fun c => c.cumulativePercentage ≤ 80)
        = ranking.take (ranking.filter (fun c => c.cumulativePercentage ≤ 80)).length := by
    conv_lhs => rw [hft, takeWhile_eq_take]
    rw [← hft]
  by_cases h0 : (ranking.filter (fun c => c.cumulativePercentage ≤ 80)).length = 0
      ∧ 0 < ranking.length
  · refine ⟨1, le_refl 1, ?_⟩
    simp only [paretoSelect]
    rw [if_pos h0]
    rcases ranking with _ | ⟨r, rest⟩
    · exact absurd rfl hne
    · have h00 : (r :: rest).filter (fun c => c.cumulativePercentage ≤ 80) = [] :=
        List.length_eq_zero.1 h0.1
      simp [h00, List.getElem?_cons_zero]
  · simp only [paretoSelect]
    rw [if_neg h0]
    by_cases hlt :
        (ranking.filter (fun c => c.cumulativePercentage ≤ 80)).length < ranking.length
    · rw [if_pos hlt]
      obtain ⟨c, hc⟩ :
          ∃ c, ranking[(ranking.filter
            (fun c => c.cumulativePercentage ≤ 80)).length]? = some c :=
        ⟨_, List.getElem?_eq_getElem hlt⟩
      rw [hc]
      refine ⟨(ranking.filter (fun c => c.cumulativePercentage ≤ 80)).length + 1,
        by omega, ?_⟩
      conv_lhs => rw [hpfx_take]
      exact take_concat_getElem _ _ _ hc
    · rw [if_neg hlt]
      have hle := List.length_filter_le
        (fun c => decide (c.cumulativePercentage ≤ 80)) ranking
      have hlen_eq :
          (ranking.filter (fun c => c.cumulativePercentage ≤ 80)).length
            = ranking.length := by omega
      refine ⟨ranking.length, ?_, ?_⟩
      · have := List.length_pos_iff_ne_nil.2 hne
        omega
      · rw [hpfx_take, hlen_eq]

theorem paretoSelect_straddle (ranking : List CategorySpending)
    (hchain : List.Chain' (fun x y => x.cumulativePercentage ≤ y.cumulativePercentage) ranking)
    (hne : ranking ≠ [])
    (hlast : ∃ c, ranking.getLast? = some c ∧ c.cumulativePercentage = 100) :
    ∃ c, (paretoSelect ranking).getLast? = some c ∧ 80 ≤ c.cumulativePercentage := by
  have hft := monotone_filter_eq_takeWhile ranking hchain
  by_cases h0 : (ranking.filter (fun c => c.cumulativePercentage ≤ 80)).length = 0
      ∧ 0 < ranking.length
  · rcases ranking with _ | ⟨r, rest⟩
    · exact absurd rfl hne
    · have h00 : (r :: rest).filter (fun c => c.cumulativePercentage ≤ 80) = [] :=
        List.length_eq_zero.1 h0.1
      have hr : ¬ (r.cumulativePercentage ≤ 80) := by
        have := List.filter_eq_nil_iff.1 h00 r (List.mem_cons_self r rest)
        simpa using this
      refine ⟨r, ?_, le_of_lt (not_le.1 hr)⟩
      simp only [paretoSelect]
      rw [if_pos h0]
      simp [h00, List.getElem?_cons_zero]
  · simp only [paretoSelect]
    rw [if_neg h0]
    by_cases hlt :
        (ranking.filter (fun c => c.cumulativePercentage ≤ 80)).length < ranking.length
    · rw [if_pos hlt]
      obtain ⟨c, hc⟩ :
          ∃ c, ranking[(ranking.filter
            (fun c => c.cumulativePercentage ≤ 80)).length]? = some c :=
        ⟨_, List.getElem?_eq_getElem hlt⟩
      rw [hc]
      refine ⟨c, List.getLast?_concat _, ?_⟩
      have hlt' :
          (ranking.takeWhile (fun c => c.cumulativePercentage ≤ 80)).length
            < ranking.length := by
        rw [← hft]; exact hlt
      have hc' :
          ranking[(ranking.takeWhile (fun c => c.cumulativePercentage ≤ 80)).length]?
            = some c := by
        rw [← hft]; exact hc
      have hfalse := takeWhile_next_false _ ranking c hlt' hc'
      have hnle : ¬ (c.cumulativePercentage ≤ 80) := by
        simpa using hfalse
      exact le_of_lt (not_le.1 hnle)
    · rw [if_neg hlt]
      have hle := List.length_filter_le
        (fun c => decide (c.cumulativePercentage ≤ 80)) ranking
      have hlen_eq :
          (ranking.filter (fun c => c.cumulativePercentage ≤ 80)).length
            = ranking.length := by omega
      have hall : ranking.filter (fun c => c.cumulativePercentage ≤ 80) = ranking := by
        conv_lhs => rw [hft, takeWhile_eq_take]
        rw [← hft, hlen_eq, List.take_length]
      obtain ⟨c, hc1, hc2⟩ := hlast
      exact ⟨c, by rw [hall]; exact hc1, by rw [hc2]; norm_num⟩

theorem paretoTotalSpending_eq_sum (totals : List (Int × (ℚ × Nat))) :
    paretoTotalSpending totals = (totals.map (fun p => p.2.1)).sum := by
  unfold paretoTotalSpending
  rw [show totals.foldl (fun sum item => sum + item.2.1) 0
      = (totals.map (fun p => p.2.1)).foldl (fun a b => a + b) 0 from
      (List.foldl_map _ _ _ _).symm]
  rw [foldl_add_eq, zero_add]

theorem paretoRanking_map_totalAmount (totals : List (Int × (ℚ × Nat)))
    (cats : List Category) :
    List.Perm ((paretoRanking totals cats).map (fun c => c.totalAmount))
      (totals.map (fun p => p.2.1)) := by
  unfold paretoRanking
  rw [setCumulative_map_totalAmount]
  have hperm :=
    (List.perm_insertionSort (fun a b : CategorySpending => b.totalAmount ≤ a.totalAmount)
      (paretoEntries totals cats)).map (fun c => c.totalAmount)
  have hmap : (paretoEntries totals cats).map (fun c => c.totalAmount)
      = totals.map (fun p => p.2.1) := by
    unfold paretoEntries
    rw [List.map_map]
    rfl
  exact hmap ▸ hperm

theorem paretoRanking_sum (totals : List (Int × (ℚ × Nat))) (cats : List Category) :
    ((paretoRanking totals cats).map (fun c => c.totalAmount)).sum
      = paretoTotalSpending totals := by
  rw [(paretoRanking_map_totalAmount totals cats).sum_eq, paretoTotalSpending_eq_sum]

theorem paretoRanking_nonneg (totals : List (Int × (ℚ × Nat))) (cats : List Category)
    (h : ∀ p ∈ totals, 0 ≤ p.2.1) :
    ∀ c ∈ paretoRanking totals cats, 0 ≤ c.totalAmount := by
  intro c hc
  have hmem : c.totalAmount ∈ (paretoRanking totals cats).map (fun c => c.totalAmount) :=
    List.mem_map_of_mem _ hc
  have hmem2 := (paretoRanking_map_totalAmount totals cats).mem_iff.1 hmem
  obtain ⟨p, hp, hpe⟩ := List.mem_map.1 hmem2
  exact hpe ▸ h p hp

theorem paretoRanking_ne_nil (totals : List (Int × (ℚ × Nat))) (cats : List Category)
    (h : 0 < paretoTotalSpending totals) :
    paretoRanking totals cats ≠ [] := by
  intro hnil
  have hsum := paretoRanking_sum totals cats
  rw [hnil] at hsum
  simp only [List.map_nil, List.sum_nil] at hsum
  rw [← hsum] at h
  exact lt_irrefl 0 h

theorem paretoRanking_chain (totals : List (Int × (ℚ × Nat))) (cats : List Category)
    (h : ∀ p ∈ totals, 0 ≤ p.2.1) :
    List.Chain' (fun x y => x.cumulativePercentage ≤ y.cumulativePercentage)
      (paretoRanking totals cats) := by
  unfold paretoRanking
  apply setCumulative_chain
  intro c hc
  have hc2 := (List.perm_insertionSort
    (fun a b : CategorySpending => b.totalAmount ≤ a.totalAmount)
    (paretoEntries totals cats)).mem_iff.1 hc
  obtain ⟨p, hp, hpe⟩ := List.mem_map.1 hc2
  have : c.totalAmount = p.2.1 := by rw [← hpe]
  rw [this]
  exact h p hp

theorem paretoRanking_last100 (totals : List (Int × (ℚ × Nat))) (cats : List Category)
    (h : 0 < paretoTotalSpending totals) :
    ∃ c, (paretoRanking totals cats).getLast? = some c ∧ c.cumulativePercentage = 100 := by
  have hne := paretoRanking_ne_nil totals cats h
  have hsne :
      (paretoEntries totals cats).insertionSort
        (fun a b => b.totalAmount ≤ a.totalAmount) ≠ [] := by
    intro h0
    apply hne
    unfold paretoRanking
    rw [h0]
    rfl
  obtain ⟨c, hc1, hc2⟩ := setCumulative_getLast (paretoTotalSpending totals) h _ 0 hsne
  refine ⟨c, hc1, ?_⟩
  have hsum :
      (((paretoEntries totals cats).insertionSort
          (fun a b => b.totalAmount ≤ a.totalAmount)).map (fun x => x.totalAmount)).sum
        = paretoTotalSpending totals := by
    have hs := paretoRanking_sum totals cats
    unfold paretoRanking at hs
    rw [setCumulative_map_totalAmount] at hs
    exact hs
  rw [hc2, zero_add, hsum, div_self (ne_of_gt h), one_mul]

theorem calculateParetoAnalysis_of_ne (txs : List Transaction) (cats : List Category)
    (h : ¬ txs.length = 0) :
    calculateParetoAnalysis txs cats = paretoFromTotals (categoryTotals txs) cats := by
  simp [calculateParetoAnalysis, h]

theorem calculateParetoAnalysis_total_zero (txs : List Transaction) (cats : List Category)
    (h : txs.length = 0) : (calculateParetoAnalysis txs cats).totalSpending = 0 := by
  simp [calculateParetoAnalysis, h]

/-- C2: whenever the ranking returned by `calculateParetoAnalysis` is
non-empty, `paretoCategories` is a non-empty prefix of it — the first
`k` entries, in the same order, for some `k ≥ 1`. -/
theorem paretoCategories_nonempty_take :
    ∀ (transactions : List Transaction) (categories : List Category),
      (calculateParetoAnalysis transactions categories).categories ≠ [] →
      ∃ k, 1 ≤ k ∧
        (calculateParetoAnalysis transactions categories).paretoCategories
          = ((calculateParetoAnalysis transactions categories).categories).take k := by
  intro transactions categories hne
  by_cases h : transactions.length = 0
  · exfalso
    apply hne
    simp [calculateParetoAnalysis, h]
  · rw [calculateParetoAnalysis_of_ne transactions categories h] at hne ⊢
    exact paretoSelect_take_form _
      (paretoRanking_chain _ _ (categoryTotals_nonneg transactions)) hne

/-- Witness: `paretoCategories_nonempty_take` applied to one concrete
transaction (the non-empty-ranking hypothesis discharged by
evaluation). -/
theorem paretoCategories_nonempty_take_witness :
    ∃ k, 1 ≤ k ∧
      (calculateParetoAnalysis
          [{ id := 1, date := 0, description := "a", amount := 10, categoryId := some 1 }]
          []).paretoCategories
        = ((calculateParetoAnalysis
            [{ id := 1, date := 0, description := "a", amount := 10, categoryId := some 1 }]
            []).categories).take k :=
  paretoCategories_nonempty_take _ [] (by with_unfolding_all decide)

/-- C3 (amended): `cumulativePercentage` is non-decreasing along the
returned ranking, and whenever `totalSpending` is positive the last
entry's `cumulativePercentage` equals 100 exactly (the rational model
needs no floating tolerance). The original claim asserts the
last-entry value unconditionally, which fails when every amount is 0:
see the counterexample. -/
theorem cumulative_monotone_and_last :
    ∀ (transactions : List Transaction) (categories : List Category),
      List.Pairwise (fun a b => a.cumulativePercentage ≤ b.cumulativePercentage)
        (calculateParetoAnalysis transactions categories).categories ∧
      (0 < (calculateParetoAnalysis transactions categories).totalSpending →
        ∃ c, (calculateParetoAnalysis transactions categories).categories.getLast? = some c ∧
          c.cumulativePercentage = 100) := by
  intro transactions categories
  by_cases h : transactions.length = 0
  · constructor
    · simp [calculateParetoAnalysis, h]
    · intro habs
      rw [calculateParetoAnalysis_total_zero transactions categories h] at habs
      exact absurd habs (lt_irrefl 0)
  · rw [calculateParetoAnalysis_of_ne transactions categories h]
    constructor
    · exact chain'_cum_pairwise _
        (paretoRanking_chain _ _ (categoryTotals_nonneg transactions))
    · intro hpos
      exact paretoRanking_last100 _ _ hpos

/-- Counterexample to C3 as stated: a single zero-amount transaction
yields a one-entry ranking whose last `cumulativePercentage` is 0, not
100 (nor anywhere near it). -/
theorem cumulative_last_counterexample :
    ((calculateParetoAnalysis
        [{ id := 1, date := 0, description := "z", amount := 0, categoryId := none }]
        []).categories.map (fun c => c.cumulativePercentage)).getLast? = some 0 ∧
    (0 : ℚ) ≠ 100 :=
  ⟨by with_unfolding_all rfl, by norm_num⟩

/-- Witness: `cumulative_monotone_and_last` applied to one concrete
transaction with positive spending (the positivity hypothesis
discharged by evaluation). -/
theorem cumulative_monotone_and_last_witness :
    ∃ c, (calculateParetoAnalysis
        [{ id := 1, date := 0, description := "a", amount := 10, categoryId := some 1 }]
        []).categories.getLast? = some c ∧ c.cumulativePercentage = 100 :=
  (cumulative_monotone_and_last
      [{ id := 1, date := 0, description := "a", amount := 10, categoryId := some 1 }] []).2
    (by with_unfolding_all decide)

/-- C1 (amended): `paretoCategories` is exactly the spec's selection
rule applied to the returned ranking (the `<= 80` prefix with the
empty-prefix and next-entry corrections); and whenever `totalSpending`
is positive the selection indeed straddles or reaches the 80% line
(its last entry's cumulative percentage is ≥ 80). The original
claim's unconditional "always straddles or reaches the 80% line"
fails when every amount is 0: see the counterexample. -/
theorem paretoSelection_rule_and_straddle :
    ∀ (transactions : List Transaction) (categories : List Category),
      (calculateParetoAnalysis transactions categories).paretoCategories
        = paretoSelectionSpec (calculateParetoAnalysis transactions categories).categories ∧
      (0 < (calculateParetoAnalysis transactions categories).totalSpending →
        ∃ c, (calculateParetoAnalysis transactions categories).paretoCategories.getLast?
            = some c ∧
          80 ≤ c.cumulativePercentage) := by
  intro transactions categories
  by_cases h : transactions.length = 0
  · constructor
    · simp [calculateParetoAnalysis, h]
      rfl
    · intro habs
      rw [calculateParetoAnalysis_total_zero transactions categories h] at habs
      exact absurd habs (lt_irrefl 0)
  · rw [calculateParetoAnalysis_of_ne transactions categories h]
    constructor
    · exact paretoSelect_eq_spec _
    · intro hpos
      exact paretoSelect_straddle _
        (paretoRanking_chain _ _ (categoryTotals_nonneg transactions))
        (paretoRanking_ne_nil _ _ hpos)
        (paretoRanking_last100 _ _ hpos)

/-- Counterexample to C1 as stated: with a single zero-amount
transaction the selection keeps the whole ranking, whose last (and
only) entry has `cumulativePercentage` 0, so the selection neither
straddles nor reaches the 80% line. -/
theorem pareto_straddle_counterexample :
    ((calculateParetoAnalysis
        [{ id := 2, date := 0, description := "z", amount := 0, categoryId := some 5 }]
        []).paretoCategories.map (fun c => c.cumulativePercentage)) = [0] ∧
    ¬ (80 : ℚ) ≤ 0 :=
  ⟨by with_unfolding_all rfl, by norm_num⟩

/-- Witness: `paretoSelection_rule_and_straddle` applied to one
concrete transaction with positive spending. -/
theorem paretoSelection_rule_and_straddle_witness :
    (calculateParetoAnalysis
        [{ id := 1, date := 0, description := "a", amount := 10, categoryId := some 1 }]
        []).paretoCategories
      = paretoSelectionSpec (calculateParetoAnalysis
          [{ id := 1, date := 0, description := "a", amount := 10, categoryId := some 1 }]
          []).categories ∧
    ∃ c, (calculateParetoAnalysis
        [{ id := 1, date := 0, description := "a", amount := 10, categoryId := some 1 }]
        []).paretoCategories.getLast? = some c ∧ 80 ≤ c.cumulativePercentage :=
  ⟨(paretoSelection_rule_and_straddle
      [{ id := 1, date := 0, description := "a", amount := 10, categoryId := some 1 }] []).1,
    (paretoSelection_rule_and_straddle
      [{ id := 1, date := 0, description := "a", amount := 10, categoryId := some 1 }] []).2
      (by with_unfolding_all decide)⟩

/-! ## CSV pipeline lemmas -/

theorem parseCSVFrom_cons (mapping : ColumnMapping) (index : Nat) (row : List String)
    (rest : List (List String)) :
    parseCSVFrom mapping index (row :: rest)
      = match rowOutcome mapping row with
        | .ok data =>
            { valid := data :: (parseCSVFrom mapping (index + 1) rest).valid
              invalid := (parseCSVFrom mapping (index + 1) rest).invalid }
        | .error e =>
            { valid := (parseCSVFrom mapping (index + 1) rest).valid
              invalid := { rowIndex := index, row := row, error := e }
                :: (parseCSVFrom mapping (index + 1) rest).invalid } := by
  simp only [parseCSVFrom, rowOutcome]
  cases hm : mapColumnsToTransaction row mapping with
  | none => rfl
  | some mapped =>
      dsimp only []
      generalize validateTransactionRow mapped = v
      obtain ⟨succ, dat, err⟩ := v
      cases succ <;> cases dat <;> rfl

theorem parseCSVFrom_length (mapping : ColumnMapping) :
    ∀ (rows : List (List String)) (index : Nat),
      (parseCSVFrom mapping index rows).valid.length
        + (parseCSVFrom mapping index rows).invalid.length = rows.length := by
  intro rows
  induction rows with
  | nil => intro index; rfl
  | cons row rest ih =>
      intro index
      rw [parseCSVFrom_cons]
      cases rowOutcome mapping row with
      | ok d =>
          have := ih (index + 1)
          simp only [List.length_cons]
          omega
      | error e =>
          have := ih (index + 1)
          simp only [List.length_cons]
          omega

theorem parseCSVFrom_valid (mapping : ColumnMapping) :
    ∀ (rows : List (List String)) (index : Nat),
      (parseCSVFrom mapping index rows).valid
        = rows.filterMap (fun row => outcomeValue (rowOutcome mapping row)) := by
  intro rows
  induction rows with
  | nil => intro index; rfl
  | cons row rest ih =>
      intro index
      rw [parseCSVFrom_cons, List.filterMap_cons]
      cases ho : rowOutcome mapping row with
      | ok d => simp only [outcomeValue, ih (index + 1)]
      | error e => simp only [outcomeValue, ih (index + 1)]

theorem parseCSVFrom_invalid_mem (mapping : ColumnMapping) :
    ∀ (rows : List (List String)) (index : Nat) (inv : InvalidRow),
      inv ∈ (parseCSVFrom mapping index rows).invalid →
        index ≤ inv.rowIndex ∧ rows[inv.rowIndex - index]? = some inv.row := by
  intro rows
  induction rows with
  | nil =>
      intro index inv h
      simp [parseCSVFrom] at h
  | cons row rest ih =>
      intro index inv h
      rw [parseCSVFrom_cons] at h
      cases ho : rowOutcome mapping row with
      | ok d =>
          rw [ho] at h
          obtain ⟨h1, h2⟩ := ih (index + 1) inv h
          refine ⟨by omega, ?_⟩
          rw [show inv.rowIndex - index = (inv.rowIndex - (index + 1)) + 1 from by omega,
            List.getElem?_cons_succ]
          exact h2
      | error e =>
          rw [ho] at h
          rcases List.mem_cons.1 h with h1 | h1
          · subst h1
            exact ⟨le_refl _, by simp⟩
          · obtain ⟨h2, h3⟩ := ih (index + 1) inv h1
            refine ⟨by omega, ?_⟩
            rw [show inv.rowIndex - index = (inv.rowIndex - (index + 1)) + 1 from by omega,
              List.getElem?_cons_succ]
            exact h3

theorem parseCSVFrom_invalid_indices (mapping : ColumnMapping) :
    ∀ (rows : List (List String)) (index : Nat),
      List.Pairwise (· < ·)
        ((parseCSVFrom mapping index rows).invalid.map (fun r => r.rowIndex)) := by
  intro rows
  induction rows with
  | nil => intro index; exact List.Pairwise.nil
  | cons row rest ih =>
      intro index
      rw [parseCSVFrom_cons]
      cases ho : rowOutcome mapping row with
      | ok d => exact ih (index + 1)
      | error e =>
          simp only [List.map_cons]
          refine List.Pairwise.cons ?_ (ih (index + 1))
          intro j hj
          obtain ⟨inv, hinv, hje⟩ := List.mem_map.1 hj
          have := (parseCSVFrom_invalid_mem mapping rest (index + 1) inv hinv).1
          subst hje
          show index < inv.rowIndex
          omega

theorem parseCSVFrom_mem_of_get (mapping : ColumnMapping) :
    ∀ (rows : List (List String)) (index i : Nat) (row : List String),
      rows[i]? = some row →
      (match rowOutcome mapping row with
       | .ok data => data ∈ (parseCSVFrom mapping index rows).valid
       | .error e =>
          ({ rowIndex := index + i, row := row, error := e } : InvalidRow)
            ∈ (parseCSVFrom mapping index rows).invalid) := by
  intro rows
  induction rows with
  | nil => intro index i row h; simp at h
  | cons r rest ih =>
      intro index i row h
      cases i with
      | zero =>
          simp only [List.getElem?_cons_zero, Option.some.injEq] at h
          subst h
          rw [parseCSVFrom_cons]
          cases ho : rowOutcome mapping r with
          | ok d => exact List.mem_cons_self _ _
          | error e => exact List.mem_cons_self _ _
      | succ m =>
          rw [List.getElem?_cons_succ] at h
          have hrec := ih (index + 1) m row h
          rw [parseCSVFrom_cons]
          cases ho : rowOutcome mapping row with
          | ok d =>
              rw [ho] at hrec
              dsimp only [] at hrec ⊢
              cases hor : rowOutcome mapping r with
              | ok d' => exact List.mem_cons.2 (Or.inr hrec)
              | error e' => exact hrec
          | error e =>
              rw [ho] at hrec
              dsimp only [] at hrec ⊢
              rw [show index + (m + 1) = index + 1 + m from by omega]
              cases hor : rowOutcome mapping r with
              | ok d' => exact hrec
              | error e' => exact List.mem_cons.2 (Or.inr hrec)

theorem string_length_zero_iff (s : String) : s.length = 0 ↔ s = "" := by
  cases s with
  | mk data =>
      constructor
      · intro h
        have hdata : data = [] := List.length_eq_zero.1 h
        rw [hdata]
      · intro h
        rw [h]
        rfl

theorem rowOutcome_eq_spec :
    ∀ (mapping : ColumnMapping) (row : List String),
      rowOutcome mapping row = rowOutcomeSpec mapping row := by
  intro mapping row
  unfold rowOutcome rowOutcomeSpec mapColumnsToTransaction validateTransactionRow
  by_cases hm : row.length
      ≤ max mapping.dateColumn (max mapping.descriptionColumn mapping.amountColumn)
  · simp only [if_pos hm]
  · simp only [if_neg hm]
    cases hd : parseDate (row.getD mapping.dateColumn "") with
    | none => rfl
    | some date =>
        dsimp only []
        by_cases hdesc : jsTrim (row.getD mapping.descriptionColumn "") = ""
        · simp only [hdesc, String.length_empty]
          rfl
        · have hlen : ¬ (jsTrim (row.getD mapping.descriptionColumn "")).length = 0 :=
            fun h => hdesc ((string_length_zero_iff _).1 h)
          rw [if_neg hlen, if_neg hdesc]
          cases ha : parseFloatJS (row.getD mapping.amountColumn "") with
          | none => rfl
          | some amount => rfl

/-- C6: `parseCSVToTransactions` assigns each of the `N` input rows to
exactly one partition (`valid.length + invalid.length = N`); `valid`
is the in-input-order extraction of the successful rows; the invalid
rows carry strictly increasing `rowIndex`es (input order), each equal
to the row's 0-based input position with `row` the original raw
cells. -/
theorem parseCSV_partition :
    ∀ (rows : List (List String)) (mapping : ColumnMapping),
      (parseCSVToTransactions rows mapping).valid.length
          + (parseCSVToTransactions rows mapping).invalid.length = rows.length ∧
      (parseCSVToTransactions rows mapping).valid
          = rows.filterMap (fun row => outcomeValue (rowOutcome mapping row)) ∧
      List.Pairwise (· < ·)
        ((parseCSVToTransactions rows mapping).invalid.map (fun r => r.rowIndex)) ∧
      ∀ inv ∈ (parseCSVToTransactions rows mapping).invalid,
        rows[inv.rowIndex]? = some inv.row := by
  intro rows mapping
  refine ⟨parseCSVFrom_length mapping rows 0, parseCSVFrom_valid mapping rows 0,
    parseCSVFrom_invalid_indices mapping rows 0, ?_⟩
  intro inv hinv
  have := (parseCSVFrom_invalid_mem mapping rows 0 inv hinv).2
  simpa using this

/-- Witness: `parseCSV_partition` at a concrete two-row batch (one
valid row, one row with an unparseable date), its membership
hypothesis discharged by evaluation. -/
theorem parseCSV_partition_witness :
    (parseCSVToTransactions [["2025-01-15", "A", "1.5"], ["bad", "B", "2"]]
        { dateColumn := 0, descriptionColumn := 1, amountColumn := 2 }).valid.length
      + (parseCSVToTransactions [["2025-01-15", "A", "1.5"], ["bad", "B", "2"]]
          { dateColumn := 0, descriptionColumn := 1, amountColumn := 2 }).invalid.length
      = 2 ∧
    ([["2025-01-15", "A", "1.5"], ["bad", "B", "2"]] : List (List String))[
        ({ rowIndex := 1, row := ["bad", "B", "2"], error := "Invalid date format" }
          : InvalidRow).rowIndex]?
      = some ({ rowIndex := 1, row := ["bad", "B", "2"], error := "Invalid date format" }
          : InvalidRow).row :=
  ⟨(parseCSV_partition [["2025-01-15", "A", "1.5"], ["bad", "B", "2"]]
      { dateColumn := 0, descriptionColumn := 1, amountColumn := 2 }).1,
    (parseCSV_partition [["2025-01-15", "A", "1.5"], ["bad", "B", "2"]]
      { dateColumn := 0, descriptionColumn := 1, amountColumn := 2 }).2.2.2
      { rowIndex := 1, row := ["bad", "B", "2"], error := "Invalid date format" }
      (by decide)⟩

/-- C7: the per-row validation runs its stages in a fixed order —
column-mapping length check, then date parsing (direct parse first,
the strict `DD/MM/YYYY` pattern with 1-based→0-based month conversion
only if that fails), then trimmed-description non-emptiness, then the
numeric amount parse — recording the first failing stage's error,
while a successful row yields the parsed date, the trimmed description
and the parsed amount; every stage is a total function (no stage
throws). -/
theorem row_validation_stages :
    (∀ (mapping : ColumnMapping) (row : List String),
      rowOutcome mapping row = rowOutcomeSpec mapping row) ∧
    (∀ s : String, parseDate s = parseDateSpec s) ∧
    (∀ (mapping : ColumnMapping) (rows : List (List String)) (i : Nat) (row : List String),
      rows[i]? = some row →
      (match rowOutcomeSpec mapping row with
       | .ok data => data ∈ (parseCSVToTransactions rows mapping).valid
       | .error e =>
          ({ rowIndex := i, row := row, error := e } : InvalidRow)
            ∈ (parseCSVToTransactions rows mapping).invalid)) := by
  refine ⟨rowOutcome_eq_spec, ?_, ?_⟩
  · intro s
    simp only [parseDate, parseDateSpec]
    cases parseISODate (jsTrim s) with
    | some d => rfl
    | none =>
        cases ddmmyyyyMatch (jsTrim s) with
        | none => rfl
        | some g =>
            obtain ⟨d, m, y⟩ := g
            rfl
  · intro mapping rows i row h
    have hmem := parseCSVFrom_mem_of_get mapping rows 0 i row h
    rw [rowOutcome_eq_spec] at hmem
    simpa using hmem

/-- Witness: `row_validation_stages` applied to a one-row batch whose
row succeeds every stage (the row-lookup hypothesis discharged by
`rfl`). -/
theorem row_validation_stages_witness :
    (match rowOutcomeSpec { dateColumn := 0, descriptionColumn := 1, amountColumn := 2 }
        ["31/12/2024", " Groceries ", "-12.5"] with
     | .ok data =>
        data ∈ (parseCSVToTransactions [["31/12/2024", " Groceries ", "-12.5"]]
          { dateColumn := 0, descriptionColumn := 1, amountColumn := 2 }).valid
     | .error e =>
        ({ rowIndex := 0, row := ["31/12/2024", " Groceries ", "-12.5"], error := e }
            : InvalidRow)
          ∈ (parseCSVToTransactions [["31/12/2024", " Groceries ", "-12.5"]]
            { dateColumn := 0, descriptionColumn := 1, amountColumn := 2 }).invalid) :=
  row_validation_stages.2.2 { dateColumn := 0, descriptionColumn := 1, amountColumn := 2 }
    [["31/12/2024", " Groceries ", "-12.5"]] 0 ["31/12/2024", " Groceries ", "-12.5"] rfl

/-- C10: a date cell matching the `DD/MM/YYYY` pattern with an
out-of-range day is accepted as valid: the fallback constructs a
rolled-over calendar date — "32/01/2024" becomes 2024-02-01 — instead
of rejecting the row with the invalid-date-format error. -/
theorem ddmmyyyy_rollover_accepted :
    parseCSVToTransactions [["32/01/2024", "Courses", "10"]]
        { dateColumn := 0, descriptionColumn := 1, amountColumn := 2 }
      = { valid := [{ date := daysFromCivil 2024 2 1, description := "Courses", amount := 10 }],
          invalid := [] } ∧
    parseDate "32/01/2024" = some (daysFromCivil 2024 2 1) ∧
    parseISODate (jsTrim "32/01/2024") = none := by
  refine ⟨?_, ?_, ?_⟩
  · with_unfolding_all rfl
  · decide
  · decide

end RadinLibre
